import Mathlib

/-!
# nixio file handles: a shallow embedding of `file.c` and `nixio.c`

The C functions of the two source files are rendered as pure functions that pass
the state explicitly:

* the handle (`FILE*` stored in the userdata block, `0` for `NULL`),
* the two `static` variables of `nixio_file_read` (`buffer`, `buflen`),
* the state of the C library (`errno`, the streams), kept abstract in `Native`.

Every function also returns the list of C library calls it issued, in order.
The C code has no bounds checks of its own and the embedding adds none.

Conventions.  `unsigned int` is 32 bits wide and its arithmetic is written with an
explicit `% 2 ^ 32`.  Counts of type `size_t` are natural numbers: they are bounded
by the size of an object (`fread`/`fwrite` never return more than they were asked
for), so they do not wrap.  Lua numbers are integers here; their floating point
representation is outside the model, and `lua_pushinteger`/`lua_pushnumber` push
the value they are given.  `malloc` is assumed to succeed.  The first stack slot
of every method is a file object (`luaL_checkudata` succeeds).
-/

namespace Nixio

/-! ## Host values -/

/-- One `char`. -/
abbrev Byte := Fin 256

/-- Values of the Lua stack that the functions of `file.c` read or push. -/
inductive LuaValue where
  | nil
  | boolean (b : Bool)
  | number (n : Int)
  | string (s : List Byte)
  | userdata (p : Nat)
deriving DecidableEq, Repr

/-- How a C function registered with Lua ends.  `returned vs`: `return k` with the
`k` topmost stack values `vs`.  `argerror narg msg`: `luaL_argerror` (or a failed
`luaL_check*`) left the function by a long jump. -/
inductive Outcome where
  | returned (vals : List LuaValue)
  | argerror (narg : Nat) (msg : String)
deriving DecidableEq, Repr

/-- The userdata block of a file object: it holds the `FILE*`, `0` when closed. -/
structure Handle where
  fp : Nat
deriving DecidableEq, Repr

/-- The two `static` variables of `nixio_file_read`: the bytes at `buffer` and the
capacity `buflen` the code keeps for it.  A `NULL` buffer and a block of size zero
both hold no bytes.  The code never compares a store with `buflen`, and neither
does the model: bytes `fread` delivers are at `buffer` afterwards, as the code
reads them back. -/
structure Scratch where
  buffer : List Byte
  buflen : Nat
deriving DecidableEq, Repr

/-- A call into the C library, with its arguments and what it reported.
`off` is the offset added to the data pointer, `errno` the value of `errno`
after the call. -/
inductive Call where
  | fwrite (fp off count ret : Nat) (errno : Int)
  | fread (fp off count : Nat) (ret : List Byte) (errno : Int)
  | fseeki64 (fp : Nat) (off whence ret : Int)
  | ftelli64 (fp : Nat) (ret : Int)
  | fclose (fp : Nat)
deriving DecidableEq, Repr

/-- Constants of `<errno.h>` and conversions of the C and Lua libraries, none of
which is defined in the two source files. -/
structure Env where
  EINTR : Int
  EAGAIN : Int
  EWOULDBLOCK : Int
  strerror : Int → List Byte
  tolstring : Int → List Byte
  tonumber : List Byte → Option Int

/-- The C library as seen by `file.c`, over an abstract state `σ`.  `fwrite fp d`
is `fwrite(p, 1, d.length, fp)` with `d` the bytes at `p`; `fread fp k` is
`fread(p, 1, k, fp)` and yields the bytes stored at `p`.  The last two fields are
the part of the contract of `<stdio.h>` the code relies on. -/
structure Native (σ : Type) where
  errno : σ → Int
  fwrite : Nat → List Byte → σ → Nat × σ
  fread : Nat → Nat → σ → List Byte × σ
  fseeki64 : Nat → Int → Int → σ → Int × σ
  ftelli64 : Nat → σ → Int × σ
  fclose : Nat → σ → σ
  fwrite_le : ∀ fp d w, (fwrite fp d w).1 ≤ d.length
  fread_le : ∀ fp k w, (fread fp k w).1.length ≤ k

/-- What a call of one of the functions leaves behind. -/
structure Run (σ : Type) where
  outcome : Outcome
  handle : Handle
  scratch : Scratch
  world : σ
  calls : List Call

/-- Values of `<stdio.h>`. -/
def SEEK_SET : Int := 0

/-- Values of `<stdio.h>`. -/
def SEEK_CUR : Int := 1

/-- Values of `<stdio.h>`. -/
def SEEK_END : Int := 2

/-! ## The Lua auxiliary library, as far as `file.c` uses it -/

/-- Stack slot `narg`, for `narg ≥ 2`; slot 1 holds the file object and `args` are
the slots that follow it. -/
def argAt (args : List LuaValue) (narg : Nat) : Option LuaValue :=
  if narg < 2 then none else args.get? (narg - 2)

/-- The type name `luaL_typerror` prints for a slot. -/
def typeName : Option LuaValue → String
  | none => "no value"
  | some .nil => "nil"
  | some (.boolean _) => "boolean"
  | some (.number _) => "number"
  | some (.string _) => "string"
  | some (.userdata _) => "userdata"

/-- Outcome of `luaL_typerror(L, narg, tname)`. -/
def luaL_typerror (args : List LuaValue) (narg : Nat) (tname : String) : Outcome :=
  .argerror narg (tname ++ " expected, got " ++ typeName (argAt args narg))

/-- Model of `luaL_checklstring`: a string, or a number converted to one. -/
def luaL_checklstring (E : Env) (args : List LuaValue) (narg : Nat) :
    Except Outcome (List Byte) :=
  match argAt args narg with
  | some (.string s) => .ok s
  | some (.number n) => .ok (E.tolstring n)
  | _ => .error (luaL_typerror args narg "string")

/-- Model of `luaL_optlstring`: the default for an absent or nil slot. -/
def luaL_optlstring (E : Env) (args : List LuaValue) (narg : Nat) (d : List Byte) :
    Except Outcome (List Byte) :=
  match argAt args narg with
  | none => .ok d
  | some .nil => .ok d
  | _ => luaL_checklstring E args narg

/-- Model of `luaL_checknumber`: a number, or a string that converts to one. -/
def luaL_checknumber (E : Env) (args : List LuaValue) (narg : Nat) : Except Outcome Int :=
  match argAt args narg with
  | some (.number n) => .ok n
  | some (.string s) =>
    match E.tonumber s with
    | some n => .ok n
    | none => .error (luaL_typerror args narg "number")
  | _ => .error (luaL_typerror args narg "number")

/-- Model of `luaL_checkinteger`. -/
def luaL_checkinteger (E : Env) (args : List LuaValue) (narg : Nat) : Except Outcome Int :=
  luaL_checknumber E args narg

/-- The statement `return k`: the `k` topmost values of the stack go to the host. -/
def lua_return (stack : List LuaValue) (k : Nat) : Outcome :=
  .returned (stack.drop (stack.length - k))

/-! ## Machine integers and C strings -/

/-- Conversion to `unsigned int`. -/
def toUInt (x : Int) : Nat := (x % 2 ^ 32).toNat

/-- Conversion to `int64_t`. -/
def toInt64 (x : Int) : Int := (x + 2 ^ 63) % 2 ^ 64 - 2 ^ 63

/-- The C string at a pointer: the bytes before the first zero byte. -/
def cstr (s : List Byte) : List Byte := s.takeWhile (fun b => b != 0)

/-- The test `!strcmp(a, b)`. -/
def streq (a b : List Byte) : Bool := cstr a == cstr b

/-- The literal `"set"`. -/
def lit_set : List Byte := [115, 101, 116]

/-- The literal `"cur"`. -/
def lit_cur : List Byte := [99, 117, 114]

/-- The literal `"end"`. -/
def lit_end : List Byte := [101, 110, 100]

/-! ## nixio.c -/

/-- Embedding of `nixio__perror`: pushes nil (or false), the error number and the
error string; the second component is the value of its `return`. -/
def nixio__perror {σ : Type} (N : Native σ) (E : Env) (w : σ) (stack : List LuaValue) :
    List LuaValue × Nat :=
  let stack1 :=
    if N.errno w = E.EAGAIN ∨ N.errno w = E.EWOULDBLOCK then
      stack ++ [LuaValue.boolean false]
    else
      stack ++ [LuaValue.nil]
  let stack2 := stack1 ++ [LuaValue.number (N.errno w)]
  let stack3 := stack2 ++ [LuaValue.string (E.strerror (N.errno w))]
  (stack3, 3)

/-- Embedding of `nixio__tofp`. -/
def nixio__tofp (h : Handle) : Nat := h.fp

/-- Embedding of `nixio__checkfp`: the pointer, or the argument error. -/
def nixio__checkfp (h : Handle) (ud : Nat) : Except Outcome Nat :=
  if nixio__tofp h = 0 then .error (.argerror ud "invalid file descriptor")
  else .ok (nixio__tofp h)

/-! ## file.c -/

/-- State of the `do ... while` loop of `nixio_file_write` when it stops, or when
the iteration budget is used up (`finished = false`). -/
structure WriteLoop (σ : Type) where
  finished : Bool
  sent : Nat
  world : σ
  calls : List Call

/-- The loop `do sent += fwrite(data+sent, 1, len-sent, fp); while (sent < len &&
errno == EINTR)`, run for at most the given number of iterations. -/
def writeLoop {σ : Type} (N : Native σ) (E : Env) (fp : Nat) (data : List Byte) :
    Nat → Nat → σ → List Call → WriteLoop σ
  | 0, sent, w, tr => ⟨false, sent, w, tr⟩
  | fuel + 1, sent, w, tr =>
    let r := N.fwrite fp (data.drop sent) w
    let sent1 := sent + r.1
    let tr1 := tr ++ [Call.fwrite fp sent (data.length - sent) r.1 (N.errno r.2)]
    if sent1 < data.length ∧ N.errno r.2 = E.EINTR then
      writeLoop N E fp data fuel sent1 r.2 tr1
    else
      ⟨true, sent1, r.2, tr1⟩

/-- Embedding of `nixio_file_write`.  `none`: the loop was still running when the
budget ran out. -/
def nixio_file_write {σ : Type} (N : Native σ) (E : Env) (h : Handle)
    (args : List LuaValue) (sc : Scratch) (w : σ) (fuel : Nat) : Option (Run σ) :=
  match nixio__checkfp h 1 with
  | .error e => some ⟨e, h, sc, w, []⟩
  | .ok fp =>
    match luaL_checklstring E args 2 with
    | .error e => some ⟨e, h, sc, w, []⟩
    | .ok data =>
      let l := writeLoop N E fp data fuel 0 w []
      if l.finished then
        if 0 ≤ l.sent then
          some ⟨lua_return (args ++ [LuaValue.number l.sent]) 1, h, sc, l.world, l.calls⟩
        else
          some ⟨lua_return args 0, h, sc, l.world, l.calls⟩
      else none

/-- The resize step of `nixio_file_read`: `if (req > buflen) { buflen = req * 2;
free; malloc }`, the product taken in `unsigned int`.  The contents of a fresh
block are indeterminate; zero bytes stand for them. -/
def resize (sc : Scratch) (req : Nat) : Scratch :=
  if req > sc.buflen then
    let buflen := (req * 2) % 2 ^ 32
    ⟨List.replicate buflen 0, buflen⟩
  else sc

/-- Bytes `bs` stored at offset `off` of a block. -/
def store (buf : List Byte) (off : Nat) (bs : List Byte) : List Byte :=
  buf.take off ++ bs ++ buf.drop (off + bs.length)

/-- How a run of the read loop stops: the loop condition failed, or the iteration
budget was used up. -/
inductive LoopEnd where
  | done
  | budget
deriving DecidableEq, Repr

/-- State of the `do ... while` loop of `nixio_file_read` when it stops. -/
structure ReadLoop (σ : Type) where
  ending : LoopEnd
  readc : Nat
  buffer : List Byte
  world : σ
  calls : List Call

/-- The loop `do readc += fread(buffer+readc, 1, req-readc, fp); while (readc < req
&& errno == EINTR)`, run for at most the given number of iterations. -/
def readLoop {σ : Type} (N : Native σ) (E : Env) (fp req : Nat) :
    Nat → Nat → List Byte → σ → List Call → ReadLoop σ
  | 0, readc, buf, w, tr => ⟨.budget, readc, buf, w, tr⟩
  | fuel + 1, readc, buf, w, tr =>
    let r := N.fread fp (req - readc) w
    let tr1 := tr ++ [Call.fread fp readc (req - readc) r.1 (N.errno r.2)]
    let buf1 := store buf readc r.1
    let readc1 := readc + r.1.length
    if readc1 < req ∧ N.errno r.2 = E.EINTR then
      readLoop N E fp req fuel readc1 buf1 r.2 tr1
    else
      ⟨.done, readc1, buf1, r.2, tr1⟩

/-- Embedding of `nixio_file_read`.  `none`: the loop was still running when the
budget ran out. -/
def nixio_file_read {σ : Type} (N : Native σ) (E : Env) (h : Handle)
    (args : List LuaValue) (sc : Scratch) (w : σ) (fuel : Nat) : Option (Run σ) :=
  match nixio__checkfp h 1 with
  | .error e => some ⟨e, h, sc, w, []⟩
  | .ok fp =>
    match luaL_checkinteger E args 2 with
    | .error e => some ⟨e, h, sc, w, []⟩
    | .ok n =>
      let req := toUInt n
      let sc1 := resize sc req
      let l := readLoop N E fp req fuel 0 sc1.buffer w []
      match l.ending with
      | .budget => none
      | .done =>
        if l.readc ≤ 0 then
          some ⟨lua_return args 0, h, ⟨l.buffer, sc1.buflen⟩, l.world, l.calls⟩
        else
          some ⟨lua_return (args ++ [LuaValue.string (l.buffer.take l.readc)]) 1, h,
            ⟨l.buffer, sc1.buflen⟩, l.world, l.calls⟩

/-- Embedding of `nixio_file_seek`. -/
def nixio_file_seek {σ : Type} (N : Native σ) (E : Env) (h : Handle)
    (args : List LuaValue) (sc : Scratch) (w : σ) : Run σ :=
  match nixio__checkfp h 1 with
  | .error e => ⟨e, h, sc, w, []⟩
  | .ok fp =>
    match luaL_optlstring E args 2 lit_set with
    | .error e => ⟨e, h, sc, w, []⟩
    | .ok whstr =>
      match luaL_checknumber E args 3 with
      | .error e => ⟨e, h, sc, w, []⟩
      | .ok x =>
        let off := toInt64 x
        let whence : Option Int :=
          if streq whstr lit_set then some SEEK_SET
          else if streq whstr lit_cur then some SEEK_CUR
          else if streq whstr lit_end then some SEEK_END
          else none
        match whence with
        | none => ⟨.argerror 3 "supported values: set, cur, end", h, sc, w, []⟩
        | some wh =>
          let r := N.fseeki64 fp off wh w
          let offr := r.1
          if offr < 0 then
            ⟨lua_return args 0, h, sc, r.2, [Call.fseeki64 fp off wh offr]⟩
          else
            let t := N.ftelli64 fp r.2
            ⟨lua_return (args ++ [LuaValue.number t.1]) 1, h, sc, t.2,
              [Call.fseeki64 fp off wh offr, Call.ftelli64 fp t.1]⟩

/-- Embedding of `nixio_file_tell`. -/
def nixio_file_tell {σ : Type} (N : Native σ) (h : Handle)
    (args : List LuaValue) (sc : Scratch) (w : σ) : Run σ :=
  match nixio__checkfp h 1 with
  | .error e => ⟨e, h, sc, w, []⟩
  | .ok fp =>
    let t := N.ftelli64 fp w
    let pos := t.1
    if pos < 0 then
      ⟨lua_return args 0, h, sc, t.2, [Call.ftelli64 fp pos]⟩
    else
      ⟨lua_return (args ++ [LuaValue.number pos]) 1, h, sc, t.2, [Call.ftelli64 fp pos]⟩

/-- Embedding of `nixio_file_close`: `fclose(*fpp); *fpp = NULL; return 0;`.  There
is no test of `*fpp`: on a closed handle the pointer handed to `fclose` is `NULL`. -/
def nixio_file_close {σ : Type} (N : Native σ) (h : Handle)
    (args : List LuaValue) (sc : Scratch) (w : σ) : Run σ :=
  ⟨lua_return args 0, ⟨0⟩, sc, N.fclose h.fp w, [Call.fclose h.fp]⟩

/-- Embedding of `nixio_file__gc`: the same two statements under `if (*fpp != NULL)`. -/
def nixio_file__gc {σ : Type} (N : Native σ) (h : Handle)
    (args : List LuaValue) (sc : Scratch) (w : σ) : Run σ :=
  if h.fp ≠ 0 then
    ⟨lua_return args 0, ⟨0⟩, sc, N.fclose h.fp w, [Call.fclose h.fp]⟩
  else
    ⟨lua_return args 0, h, sc, w, []⟩

/-! ## A concrete C library: one regular file, calls that complete in full -/

/-- A file as byte contents and a position, with the value of `errno`. -/
structure IdealFile where
  contents : List Byte
  pos : Nat
  errno : Int
deriving DecidableEq, Repr

/-- Contents after `d` is written at position `p`; a gap past the end reads as
zero bytes. -/
def overwrite (c : List Byte) (p : Nat) (d : List Byte) : List Byte :=
  c.take p ++ List.replicate (p - c.length) 0 ++ d ++ c.drop (p + d.length)

/-- The ideal library: `fwrite` writes all it is given at the position, `fread`
yields the bytes from the position up to the count or the end of the file, a seek
to a negative position fails with `-1`, and no call touches `errno`. -/
def idealNative : Native IdealFile where
  errno := fun w => w.errno
  fwrite := fun _ d w =>
    (d.length, { w with contents := overwrite w.contents w.pos d, pos := w.pos + d.length })
  fread := fun _ k w =>
    ((w.contents.drop w.pos).take k,
      { w with pos := w.pos + ((w.contents.drop w.pos).take k).length })
  fseeki64 := fun _ off wh w =>
    let base : Int :=
      if wh = SEEK_SET then 0 else if wh = SEEK_CUR then w.pos else w.contents.length
    if base + off < 0 then (-1, w) else (0, { w with pos := (base + off).toNat })
  ftelli64 := fun _ w => (w.pos, w)
  fclose := fun _ w => w
  fwrite_le := fun _ _ _ => le_refl _
  fread_le := fun _ k w => by simp [List.length_take]

/-- The error constants of the Microsoft C runtime, with stub conversions. -/
def crtEnv : Env where
  EINTR := 4
  EAGAIN := 11
  EWOULDBLOCK := 140
  strerror := fun e => if e = 4 then [73, 78, 84, 82] else [63]
  tolstring := fun _ => []
  tonumber := fun _ => none

/-- A scripted library: every `fread` delivers the head of the script (cut to the
count asked for) and sets `errno` as the script says; `fwrite` accepts as many
bytes as the head of the script is long. -/
structure Script where
  steps : List (List Byte × Int)
  errno : Int
deriving DecidableEq, Repr

/-- The library that plays a `Script`. -/
def scriptNative : Native Script where
  errno := fun w => w.errno
  fwrite := fun _ d w =>
    match w.steps with
    | [] => (0, w)
    | s :: rest => (min s.1.length d.length, ⟨rest, s.2⟩)
  fread := fun _ k w =>
    match w.steps with
    | [] => ([], w)
    | s :: rest => (s.1.take k, ⟨rest, s.2⟩)
  fseeki64 := fun _ _ _ w => (-1, w)
  ftelli64 := fun _ w => (-1, w)
  fclose := fun _ w => w
  fwrite_le := fun _ d w => by
    cases h : w.steps <;> simp [h]
  fread_le := fun _ k w => by
    cases h : w.steps <;> simp [h, List.length_take]

/-- The host script of the round trip: write `S`, seek to the start, read
`S.length` bytes; the outcomes of the three calls. -/
def roundTrip (E : Env) (h : Handle) (S : List Byte) (sc : Scratch) (w : IdealFile)
    (fuel : Nat) : Option (Outcome × Outcome × Outcome) :=
  match nixio_file_write idealNative E h [LuaValue.string S] sc w fuel with
  | none => none
  | some r1 =>
    let r2 := nixio_file_seek idealNative E r1.handle
      [LuaValue.string lit_set, LuaValue.number 0] r1.scratch r1.world
    match nixio_file_read idealNative E r2.handle [LuaValue.number S.length]
        r2.scratch r2.world fuel with
    | none => none
    | some r3 => some (r1.outcome, r2.outcome, r3.outcome)

/-! ## Reading a list of calls -/

/-- The bytes the `fread` calls of a list delivered, in order. -/
def received : List Call → List Byte
  | [] => []
  | .fread _ _ _ ret _ :: cs => ret ++ received cs
  | _ :: cs => received cs

/-- The `fclose` calls of a list. -/
def releases : List Call → List Nat
  | [] => []
  | .fclose fp :: cs => fp :: releases cs
  | _ :: cs => releases cs

/-- The loop condition of `nixio_file_read` as seen from a recorded `fread`: the
count is still below `req` and `errno` is `EINTR`. -/
def retried (E : Env) (req : Nat) : Call → Prop
  | .fread _ off _ ret errno => off + ret.length < req ∧ errno = E.EINTR
  | _ => False

/-- The list is the true record of successive calls `fread(buffer+readc, 1,
req-readc, fp)` of the library `N`: the first is made in state `w` with count
`readc`, the number of bytes each call delivered is added to `readc` for the next
call, and the last call leaves the count `readc1` and the state `w1`. -/
def readTrace {σ : Type} (N : Native σ) (fp req : Nat) :
    Nat → σ → List Call → Nat → σ → Prop
  | readc, w, [], readc1, w1 => readc1 = readc ∧ w1 = w
  | readc, w, c :: cs, readc1, w1 =>
    c = Call.fread fp readc (req - readc) (N.fread fp (req - readc) w).1
          (N.errno (N.fread fp (req - readc) w).2)
    ∧ readTrace N fp req (readc + (N.fread fp (req - readc) w).1.length)
        (N.fread fp (req - readc) w).2 cs readc1 w1

theorem lua_return_push (stack vs : List LuaValue) :
    lua_return (stack ++ vs) vs.length = .returned vs := by
  simp [lua_return]

theorem lua_return_zero (stack : List LuaValue) : lua_return stack 0 = .returned [] := by
  simp [lua_return]

theorem checkfp_closed (h : Handle) (ud : Nat) (hc : h.fp = 0) :
    nixio__checkfp h ud = .error (.argerror ud "invalid file descriptor") := by
  simp [nixio__checkfp, nixio__tofp, hc]

theorem checkfp_open (h : Handle) (ud : Nat) (ho : h.fp ≠ 0) :
    nixio__checkfp h ud = .ok h.fp := by
  simp [nixio__checkfp, nixio__tofp, ho]

/-! ## The error convention (`nixio__perror`) -/

/-- C6: for every value of `errno`, `nixio__perror` hands exactly three values to
the host: boolean false exactly when `errno` is `EAGAIN` or `EWOULDBLOCK` and nil
for every other value, then `errno` itself, then `strerror(errno)`. -/
theorem perror_three_values {σ : Type} (N : Native σ) (E : Env) (w : σ)
    (stack : List LuaValue) :
    ∃ first, lua_return (nixio__perror N E w stack).1 (nixio__perror N E w stack).2
        = .returned [first, .number (N.errno w), .string (E.strerror (N.errno w))]
      ∧ (first = .boolean false ↔ (N.errno w = E.EAGAIN ∨ N.errno w = E.EWOULDBLOCK))
      ∧ (first = .nil ↔ ¬ (N.errno w = E.EAGAIN ∨ N.errno w = E.EWOULDBLOCK)) := by
  by_cases hb : N.errno w = E.EAGAIN ∨ N.errno w = E.EWOULDBLOCK
  · refine ⟨.boolean false, ?_, ?_, ?_⟩
    · have := lua_return_push stack
        [.boolean false, .number (N.errno w), .string (E.strerror (N.errno w))]
      simpa [nixio__perror, hb] using this
    · simp [hb]
    · simp [hb]
  · refine ⟨.nil, ?_, ?_, ?_⟩
    · have := lua_return_push stack
        [.nil, .number (N.errno w), .string (E.strerror (N.errno w))]
      simpa [nixio__perror, hb] using this
    · simp [hb]
    · simp [hb]

/-! ## Release of the stream: `close` and the finalizer -/

/-- C3: on a closed handle the finalizer issues no call of the C library and leaves
handle, buffer and library state as they are; on an open handle it issues exactly
one call, `fclose` of the stream, and leaves the handle closed; so a finalizer run
after `close` or after an earlier finalizer run releases nothing. -/
theorem gc_releases_once {σ : Type} (N : Native σ) (h : Handle) (args : List LuaValue)
    (sc : Scratch) (w : σ) :
    (h.fp = 0 → nixio_file__gc N h args sc w = ⟨.returned [], h, sc, w, []⟩)
    ∧ (h.fp ≠ 0 → nixio_file__gc N h args sc w
        = ⟨.returned [], ⟨0⟩, sc, N.fclose h.fp w, [Call.fclose h.fp]⟩)
    ∧ (nixio_file__gc N (nixio_file__gc N h args sc w).handle args sc w).calls = []
    ∧ (nixio_file__gc N (nixio_file_close N h args sc w).handle args sc w).calls = [] := by
  refine ⟨?_, ?_, ?_, ?_⟩
  · intro hc
    simp [nixio_file__gc, hc, lua_return_zero]
  · intro ho
    simp [nixio_file__gc, ho, lua_return_zero]
  · by_cases hc : h.fp = 0 <;> simp [nixio_file__gc, hc]
  · simp [nixio_file__gc, nixio_file_close]

/-- Instance of `gc_releases_once` at a closed and at an open handle. -/
theorem gc_releases_once_witness :
    nixio_file__gc idealNative ⟨0⟩ [] ⟨[], 0⟩ ⟨[1], 0, 0⟩
        = ⟨.returned [], ⟨0⟩, ⟨[], 0⟩, ⟨[1], 0, 0⟩, []⟩
    ∧ nixio_file__gc idealNative ⟨7⟩ [] ⟨[], 0⟩ ⟨[1], 0, 0⟩
        = ⟨.returned [], ⟨0⟩, ⟨[], 0⟩, idealNative.fclose 7 ⟨[1], 0, 0⟩, [Call.fclose 7]⟩ :=
  ⟨(gc_releases_once idealNative ⟨0⟩ [] ⟨[], 0⟩ ⟨[1], 0, 0⟩).1 rfl,
   (gc_releases_once idealNative ⟨7⟩ [] ⟨[], 0⟩ ⟨[1], 0, 0⟩).2.1 (by decide)⟩

/-- C2, evaluated on the code: `close` on a closed handle passes the null pointer
to `fclose`, and two `close` calls on an open handle issue two `fclose` calls, the
second one on the null pointer. -/
theorem close_twice_calls_fclose_twice {σ : Type} (N : Native σ) (h : Handle)
    (args : List LuaValue) (sc : Scratch) (w : σ) :
    (nixio_file_close N ⟨0⟩ args sc w).calls = [Call.fclose 0]
    ∧ releases ((nixio_file_close N h args sc w).calls
        ++ (nixio_file_close N (nixio_file_close N h args sc w).handle args
              (nixio_file_close N h args sc w).scratch
              (nixio_file_close N h args sc w).world).calls) = [h.fp, 0] := by
  simp [nixio_file_close, releases]

/-! ## Operations on a closed handle -/

/-- C4: on a closed handle, whatever the other arguments, `read`, `write`, `seek`
and `tell` end with the argument error "invalid file descriptor" on slot 1, issue
no call of the C library, and leave the handle, the scratch buffer and the library
state unchanged. -/
theorem closed_handle_rejected {σ : Type} (N : Native σ) (E : Env) (h : Handle)
    (args : List LuaValue) (sc : Scratch) (w : σ) (fuel : Nat) (hc : h.fp = 0) :
    nixio_file_read N E h args sc w fuel
        = some ⟨.argerror 1 "invalid file descriptor", h, sc, w, []⟩
    ∧ nixio_file_write N E h args sc w fuel
        = some ⟨.argerror 1 "invalid file descriptor", h, sc, w, []⟩
    ∧ nixio_file_seek N E h args sc w
        = ⟨.argerror 1 "invalid file descriptor", h, sc, w, []⟩
    ∧ nixio_file_tell N h args sc w
        = ⟨.argerror 1 "invalid file descriptor", h, sc, w, []⟩ := by
  refine ⟨?_, ?_, ?_, ?_⟩
  · simp [nixio_file_read, checkfp_closed h 1 hc]
  · simp [nixio_file_write, checkfp_closed h 1 hc]
  · simp [nixio_file_seek, checkfp_closed h 1 hc]
  · simp [nixio_file_tell, checkfp_closed h 1 hc]

/-- Instance of `closed_handle_rejected`: a closed handle, a whence string that is
none of the three, no iteration budget at all. -/
theorem closed_handle_rejected_witness :
    nixio_file_read idealNative crtEnv ⟨0⟩ [.string [120], .number 3] ⟨[9], 1⟩ ⟨[1], 0, 0⟩ 0
        = some ⟨.argerror 1 "invalid file descriptor", ⟨0⟩, ⟨[9], 1⟩, ⟨[1], 0, 0⟩, []⟩
    ∧ nixio_file_write idealNative crtEnv ⟨0⟩ [.string [120], .number 3] ⟨[9], 1⟩ ⟨[1], 0, 0⟩ 0
        = some ⟨.argerror 1 "invalid file descriptor", ⟨0⟩, ⟨[9], 1⟩, ⟨[1], 0, 0⟩, []⟩
    ∧ nixio_file_seek idealNative crtEnv ⟨0⟩ [.string [120], .number 3] ⟨[9], 1⟩ ⟨[1], 0, 0⟩
        = ⟨.argerror 1 "invalid file descriptor", ⟨0⟩, ⟨[9], 1⟩, ⟨[1], 0, 0⟩, []⟩
    ∧ nixio_file_tell idealNative ⟨0⟩ [.string [120], .number 3] ⟨[9], 1⟩ ⟨[1], 0, 0⟩
        = ⟨.argerror 1 "invalid file descriptor", ⟨0⟩, ⟨[9], 1⟩, ⟨[1], 0, 0⟩, []⟩ :=
  closed_handle_rejected idealNative crtEnv ⟨0⟩ [.string [120], .number 3] ⟨[9], 1⟩
    ⟨[1], 0, 0⟩ 0 rfl

/-! ## The write loop -/

theorem received_append (a b : List Call) : received (a ++ b) = received a ++ received b := by
  induction a with
  | nil => simp [received]
  | cons c cs ih => cases c <;> simp [received, ih]

theorem store_take (buf : List Byte) (off : Nat) (bs : List Byte)
    (hoff : (buf.take off).length = off) :
    (store buf off bs).take (off + bs.length) = buf.take off ++ bs := by
  have hlen : (buf.take off ++ bs).length = off + bs.length := by
    rw [List.length_append, hoff]
  unfold store
  rw [← hlen, List.take_left]

theorem readLoop_spec {σ : Type} (N : Native σ) (E : Env) (fp req : Nat) :
    ∀ (fuel readc : Nat) (buf : List Byte) (w : σ) (tr : List Call),
      readc ≤ req → (received tr).length = readc → buf.take readc = received tr →
      (readLoop N E fp req fuel readc buf w tr).readc ≤ req
      ∧ (received (readLoop N E fp req fuel readc buf w tr).calls).length
          = (readLoop N E fp req fuel readc buf w tr).readc
      ∧ (readLoop N E fp req fuel readc buf w tr).buffer.take
          (readLoop N E fp req fuel readc buf w tr).readc
          = received (readLoop N E fp req fuel readc buf w tr).calls := by
  intro fuel
  induction fuel with
  | zero =>
    intro readc buf w tr hr hlen hbuf
    exact ⟨hr, hlen, hbuf⟩
  | succ fuel ih =>
    intro readc buf w tr hr hlen hbuf
    have hle : (N.fread fp (req - readc) w).1.length ≤ req - readc :=
      N.fread_le fp (req - readc) w
    have hr1 : readc + (N.fread fp (req - readc) w).1.length ≤ req := by omega
    have hrec : ∀ e, received (tr ++ [Call.fread fp readc (req - readc)
        (N.fread fp (req - readc) w).1 e]) = received tr ++ (N.fread fp (req - readc) w).1 := by
      intro e
      simp [received_append, received]
    have htake : (buf.take readc).length = readc := by rw [hbuf, hlen]
    unfold readLoop
    simp only
    split_ifs with hcont
    · exact ih (readc + (N.fread fp (req - readc) w).1.length)
        (store buf readc (N.fread fp (req - readc) w).1) (N.fread fp (req - readc) w).2 _ hr1
        (by simp only [hrec, List.length_append, hlen])
        (by rw [store_take buf readc _ htake, hrec, hbuf])
    · refine ⟨hr1, ?_, ?_⟩
      · simp only [hrec, List.length_append, hlen]
      · simp only [hrec]
        rw [store_take buf readc _ htake, hbuf]

theorem readTrace_append {σ : Type} (N : Native σ) (fp req : Nat) :
    ∀ (a : List Call) (s : Nat) (w : σ) (s1 : Nat) (w1 : σ) (b : List Call) (s2 : Nat)
      (w2 : σ), readTrace N fp req s w a s1 w1 → readTrace N fp req s1 w1 b s2 w2 →
      readTrace N fp req s w (a ++ b) s2 w2 := by
  intro a
  induction a with
  | nil =>
    intro s w s1 w1 b s2 w2 ha hb
    obtain ⟨hs, hw⟩ := ha
    subst hs
    subst hw
    exact hb
  | cons c cs ih =>
    intro s w s1 w1 b s2 w2 ha hb
    obtain ⟨hc, hrest⟩ := ha
    exact ⟨hc, ih _ _ _ _ _ _ _ hrest hb⟩

theorem readLoop_trace {σ : Type} (N : Native σ) (E : Env) (fp req : Nat) :
    ∀ (fuel readc : Nat) (buf : List Byte) (w : σ) (tr : List Call) (s0 : Nat) (w0 : σ),
      readTrace N fp req s0 w0 tr readc w →
      readTrace N fp req s0 w0 (readLoop N E fp req fuel readc buf w tr).calls
        (readLoop N E fp req fuel readc buf w tr).readc
        (readLoop N E fp req fuel readc buf w tr).world := by
  intro fuel
  induction fuel with
  | zero =>
    intro readc buf w tr s0 w0 htr
    exact htr
  | succ fuel ih =>
    intro readc buf w tr s0 w0 htr
    have hstep : readTrace N fp req s0 w0
        (tr ++ [Call.fread fp readc (req - readc) (N.fread fp (req - readc) w).1
          (N.errno (N.fread fp (req - readc) w).2)])
        (readc + (N.fread fp (req - readc) w).1.length) (N.fread fp (req - readc) w).2 :=
      readTrace_append N fp req tr s0 w0 readc w _ _ _ htr ⟨rfl, rfl, rfl⟩
    unfold readLoop
    simp only
    split_ifs with hcont
    · exact ih _ _ _ _ s0 w0 hstep
    · exact hstep

theorem readLoop_calls {σ : Type} (N : Native σ) (E : Env) (fp req : Nat) :
    ∀ (fuel readc : Nat) (buf : List Byte) (w : σ) (tr : List Call),
      ∃ init : List Call, (∀ x ∈ init, retried E req x)
        ∧ (((readLoop N E fp req fuel readc buf w tr).ending = .budget
              ∧ (readLoop N E fp req fuel readc buf w tr).calls = tr ++ init
              ∧ init.length = fuel)
          ∨ (∃ c, (readLoop N E fp req fuel readc buf w tr).calls = tr ++ init ++ [c]
              ∧ (readLoop N E fp req fuel readc buf w tr).ending = .done
              ∧ ¬ retried E req c)) := by
  intro fuel
  induction fuel with
  | zero =>
    intro readc buf w tr
    exact ⟨[], by simp, Or.inl (by simp [readLoop])⟩
  | succ fuel ih =>
    intro readc buf w tr
    unfold readLoop
    simp only
    split_ifs with hcont
    · obtain ⟨init, hinit, hcase⟩ := ih (readc + (N.fread fp (req - readc) w).1.length)
        (store buf readc (N.fread fp (req - readc) w).1) (N.fread fp (req - readc) w).2
        (tr ++ [Call.fread fp readc (req - readc) (N.fread fp (req - readc) w).1
          (N.errno (N.fread fp (req - readc) w).2)])
      refine ⟨Call.fread fp readc (req - readc) (N.fread fp (req - readc) w).1
          (N.errno (N.fread fp (req - readc) w).2) :: init, ?_, ?_⟩
      · intro x hx
        rcases List.mem_cons.1 hx with hx | hx
        · subst hx
          exact hcont
        · exact hinit x hx
      · rcases hcase with ⟨he, hc, hl⟩ | ⟨c, hc, hd, hn⟩
        · exact Or.inl ⟨he, by simpa using hc, by simp [hl]⟩
        · exact Or.inr ⟨c, by simpa using hc, hd, hn⟩
    · exact ⟨[], by simp, Or.inr ⟨Call.fread fp readc (req - readc)
        (N.fread fp (req - readc) w).1 (N.errno (N.fread fp (req - readc) w).2),
        by simp, rfl, hcont⟩⟩

/-- What `read` does on an open handle with a valid count `n`, once its loop has
stopped: the bytes delivered are at most `n` as `unsigned int` and they are what
is returned: no value when there are none, else one string holding exactly them;
the calls are the true record of the library and the handle is unchanged. -/
theorem read_result {σ : Type} (N : Native σ) (E : Env) (h : Handle)
    (args : List LuaValue) (n : Int) (sc : Scratch) (w : σ) (fuel : Nat) (r : Run σ)
    (ho : h.fp ≠ 0) (hn : luaL_checkinteger E args 2 = .ok n)
    (hrun : nixio_file_read N E h args sc w fuel = some r) :
    (received r.calls).length ≤ toUInt n
    ∧ (received r.calls = [] → r.outcome = .returned [])
    ∧ (received r.calls ≠ [] → r.outcome = .returned [.string (received r.calls)])
    ∧ readTrace N h.fp (toUInt n) 0 w r.calls (received r.calls).length r.world
    ∧ r.calls ≠ []
    ∧ r.handle = h
    ∧ r.scratch.buflen = (resize sc (toUInt n)).buflen := by
  have hfp := checkfp_open h 1 ho
  obtain ⟨h1, h3, h4⟩ := readLoop_spec N E h.fp (toUInt n) fuel 0
    (resize sc (toUInt n)).buffer w [] (Nat.zero_le _) (by simp [received]) (by simp [received])
  have h5 := readLoop_trace N E h.fp (toUInt n) fuel 0 (resize sc (toUInt n)).buffer w [] 0 w
    ⟨rfl, rfl⟩
  rw [← h3] at h5
  obtain ⟨init, _, hcase⟩ := readLoop_calls N E h.fp (toUInt n) fuel 0
    (resize sc (toUInt n)).buffer w []
  simp only [nixio_file_read, hfp, hn] at hrun
  cases hend : (readLoop N E h.fp (toUInt n) fuel 0 (resize sc (toUInt n)).buffer w []).ending with
  | budget => simp [hend] at hrun
  | done =>
    have hne : (readLoop N E h.fp (toUInt n) fuel 0 (resize sc (toUInt n)).buffer w []).calls
        ≠ [] := by
      rcases hcase with ⟨he, _, _⟩ | ⟨c, hc, _, _⟩
      · rw [hend] at he
        exact absurd he (by decide)
      · rw [hc]
        simp
    have hlen : (received (readLoop N E h.fp (toUInt n) fuel 0
        (resize sc (toUInt n)).buffer w []).calls).length ≤ toUInt n := by
      rw [h3]
      exact h1
    simp only [hend] at hrun
    split_ifs at hrun with hz
    · simp only [Option.some.injEq] at hrun
      subst hrun
      have hz0 : (readLoop N E h.fp (toUInt n) fuel 0
          (resize sc (toUInt n)).buffer w []).readc = 0 := Nat.le_zero.1 hz
      have hnil : received (readLoop N E h.fp (toUInt n) fuel 0
          (resize sc (toUInt n)).buffer w []).calls = [] :=
        List.length_eq_zero.1 (by rw [h3, hz0])
      exact ⟨hlen, fun _ => lua_return_zero args, fun hne2 => absurd hnil hne2, h5, hne,
        rfl, rfl⟩
    · simp only [Option.some.injEq] at hrun
      subst hrun
      refine ⟨hlen, fun hnil => ?_, fun _ => ?_, h5, hne, rfl, rfl⟩
      · exfalso
        apply hz
        have hnil2 : received (readLoop N E h.fp (toUInt n) fuel 0
          (resize sc (toUInt n)).buffer w []).calls = [] := hnil
        rw [← h3, hnil2]
        simp
      · show lua_return (args ++ [LuaValue.string _]) 1 = _
        rw [h4]
        exact lua_return_push args [LuaValue.string _]

/-- The resize step below the point where the doubling wraps: the capacity stays
when the request fits and becomes twice the request when it does not. -/
theorem resize_small (sc : Scratch) (req : Nat) (hreq : req < 2 ^ 31) :
    (req ≤ sc.buflen → resize sc req = sc)
    ∧ (sc.buflen < req → (resize sc req).buflen = 2 * req)
    ∧ req ≤ (resize sc req).buflen ∧ sc.buflen ≤ (resize sc req).buflen := by
  have hmod : req * 2 % 2 ^ 32 = 2 * req := by
    rw [Nat.mod_eq_of_lt (by omega)]
    omega
  refine ⟨fun hle => ?_, fun hlt => ?_, ?_, ?_⟩
  · simp [resize, Nat.not_lt.2 hle]
  · simp only [resize, gt_iff_lt, hlt, if_true, hmod]
  · by_cases hlt : sc.buflen < req
    · simp only [resize, gt_iff_lt, hlt, if_true, hmod]
      omega
    · simp only [resize, gt_iff_lt, hlt, if_false]
      omega
  · by_cases hlt : sc.buflen < req
    · simp only [resize, gt_iff_lt, hlt, if_true, hmod]
      omega
    · simp [resize, hlt]

/-- C10, as the code has it: on an open handle with a valid count `n`, the calls
`read` issues are those of its loop; every `fread` but the last one issued left the
count below `n` with `errno = EINTR`; when the loop has ended, the last `fread`
did not (the count had reached `n`, or `errno` was not `EINTR`, whatever count that
call returned); and while the budget cuts the loop short every `fread` so far,
the last included, met the condition, so that a further `fread` is due. -/
theorem read_retries_exactly_on_eintr {σ : Type} (N : Native σ) (E : Env) (h : Handle)
    (args : List LuaValue) (n : Int) (sc : Scratch) (w : σ) (fuel : Nat)
    (ho : h.fp ≠ 0) (hn : luaL_checkinteger E args 2 = .ok n) :
    (∀ r, nixio_file_read N E h args sc w fuel = some r →
        r.calls = (readLoop N E h.fp (toUInt n) fuel 0
          (resize sc (toUInt n)).buffer w []).calls)
    ∧ (∀ c ∈ (readLoop N E h.fp (toUInt n) fuel 0
          (resize sc (toUInt n)).buffer w []).calls.dropLast, retried E (toUInt n) c)
    ∧ ((readLoop N E h.fp (toUInt n) fuel 0
          (resize sc (toUInt n)).buffer w []).ending = .done →
        ∃ c, (readLoop N E h.fp (toUInt n) fuel 0
          (resize sc (toUInt n)).buffer w []).calls.getLast? = some c
          ∧ ¬ retried E (toUInt n) c)
    ∧ ((readLoop N E h.fp (toUInt n) fuel 0
          (resize sc (toUInt n)).buffer w []).ending = .budget →
        (readLoop N E h.fp (toUInt n) fuel 0
          (resize sc (toUInt n)).buffer w []).calls.length = fuel
        ∧ ∀ c ∈ (readLoop N E h.fp (toUInt n) fuel 0
          (resize sc (toUInt n)).buffer w []).calls, retried E (toUInt n) c) := by
  have hfp := checkfp_open h 1 ho
  obtain ⟨init, hinit, hcase⟩ := readLoop_calls N E h.fp (toUInt n) fuel 0
    (resize sc (toUInt n)).buffer w []
  refine ⟨?_, ?_, ?_, ?_⟩
  · intro r hrun
    simp only [nixio_file_read, hfp, hn] at hrun
    cases hend : (readLoop N E h.fp (toUInt n) fuel 0
        (resize sc (toUInt n)).buffer w []).ending with
    | budget => simp [hend] at hrun
    | done =>
      simp only [hend] at hrun
      split_ifs at hrun <;>
      · simp only [Option.some.injEq] at hrun
        subst hrun
        rfl
  · intro c hc
    rcases hcase with ⟨_, hcalls, _⟩ | ⟨c0, hcalls, _, _⟩
    · rw [hcalls, List.nil_append] at hc
      exact hinit c (List.dropLast_subset _ hc)
    · rw [hcalls, List.nil_append, List.dropLast_concat] at hc
      exact hinit c hc
  · intro hd
    rcases hcase with ⟨he, _, _⟩ | ⟨c0, hcalls, _, hlast⟩
    · rw [hd] at he
      exact absurd he (by decide)
    · exact ⟨c0, by rw [hcalls, List.nil_append, List.getLast?_concat], hlast⟩
  · intro hb
    rcases hcase with ⟨_, hcalls, hl⟩ | ⟨c0, _, hne, _⟩
    · rw [hcalls, List.nil_append]
      exact ⟨hl, hinit⟩
    · rw [hne] at hb
      exact absurd hb (by decide)

/-- Instance of `read_retries_exactly_on_eintr`: a read of 2 bytes that is
interrupted after the first one and then completed; the second `fread` is the
last one and does not meet the loop condition. -/
theorem read_retries_exactly_on_eintr_witness :
    (⟨1⟩ : Handle).fp ≠ 0
    ∧ luaL_checkinteger crtEnv [.number 2] 2 = .ok 2
    ∧ (readLoop scriptNative crtEnv 1 (toUInt 2) 5 0
          (resize ⟨[], 0⟩ (toUInt 2)).buffer ⟨[([5], 4), ([6], 0)], 0⟩ []).calls
        = [Call.fread 1 0 2 [5] 4, Call.fread 1 1 1 [6] 0]
    ∧ ∃ c, (readLoop scriptNative crtEnv 1 (toUInt 2) 5 0
          (resize ⟨[], 0⟩ (toUInt 2)).buffer ⟨[([5], 4), ([6], 0)], 0⟩ []).calls.getLast?
            = some c
        ∧ ¬ retried crtEnv (toUInt 2) c :=
  ⟨by decide, rfl, by decide,
   (read_retries_exactly_on_eintr scriptNative crtEnv ⟨1⟩ [.number 2] 2 ⟨[], 0⟩
      ⟨[([5], 4), ([6], 0)], 0⟩ 5 (by decide) rfl).2.2.1 (by decide)⟩

/-- C10 fails as stated: asked for 2 bytes, the first `fread` delivers 1 byte and
leaves `errno = 0`; `read` returns that byte after this single call, although the
library had a second byte to deliver. -/
theorem short_read_is_not_retried :
    (nixio_file_read scriptNative crtEnv ⟨1⟩ [.number 2] ⟨[], 0⟩
        ⟨[([5], 0), ([6], 0)], 0⟩ 5).map (fun r => (r.outcome, r.calls, r.world))
      = some (.returned [.string [5]], [Call.fread 1 0 2 [5] 0], ⟨[([6], 0)], 0⟩) := by
  decide

/-! ## Failure results -/

/-- C5, as the code has it: on an open handle, a `read` whose calls delivered no
byte, a `seek` whose `_fseeki64` reported a negative result and a `tell` whose
`_ftelli64` reported a negative result all return no value at all. -/
theorem failure_returns_no_value {σ : Type} (N : Native σ) (E : Env) (h : Handle)
    (args : List LuaValue) (sc : Scratch) (w : σ) (ho : h.fp ≠ 0) :
    (∀ n fuel r, luaL_checkinteger E args 2 = .ok n →
        nixio_file_read N E h args sc w fuel = some r → received r.calls = [] →
        r.outcome = .returned [])
    ∧ (∀ fp off wh ret, Call.fseeki64 fp off wh ret ∈ (nixio_file_seek N E h args sc w).calls →
        ret < 0 → (nixio_file_seek N E h args sc w).outcome = .returned [])
    ∧ (∀ fp ret, Call.ftelli64 fp ret ∈ (nixio_file_tell N h args sc w).calls →
        ret < 0 → (nixio_file_tell N h args sc w).outcome = .returned []) := by
  have hfp := checkfp_open h 1 ho
  refine ⟨?_, ?_, ?_⟩
  · intro n fuel r hn hrun hnil
    exact (read_result N E h args n sc w fuel r ho hn hrun).2.1 hnil
  · intro fp off wh ret hmem hneg
    simp only [nixio_file_seek, hfp] at hmem ⊢
    cases hs : luaL_optlstring E args 2 lit_set with
    | error e => simp [hs] at hmem
    | ok whstr =>
      cases hx : luaL_checknumber E args 3 with
      | error e => simp [hs, hx] at hmem
      | ok x =>
        simp only [hs, hx] at hmem ⊢
        split at hmem
        · simp at hmem
        · rename_i wh0 hwh
          by_cases hlt : (N.fseeki64 h.fp (toInt64 x) wh0 w).1 < 0
          · simp only [hlt, if_true]
            exact lua_return_zero args
          · simp only [hlt, if_false] at hmem
            simp only [List.mem_cons, Call.fseeki64.injEq, List.mem_singleton, reduceCtorEq,
              or_false, List.not_mem_nil] at hmem
            obtain ⟨_, _, _, hret⟩ := hmem
            rw [hret] at hneg
            exact absurd hneg hlt
  · intro fp ret hmem hneg
    simp only [nixio_file_tell, hfp] at hmem ⊢
    by_cases hlt : (N.ftelli64 h.fp w).1 < 0
    · simp only [hlt, if_true]
      exact lua_return_zero args
    · simp only [hlt, if_false, List.mem_singleton, Call.ftelli64.injEq] at hmem
      obtain ⟨_, hret⟩ := hmem
      rw [hret] at hneg
      exact absurd hneg hlt

/-- Instance of `failure_returns_no_value`: a seek and a tell on a stream for which
the library reports `-1`. -/
theorem failure_returns_no_value_witness :
    (nixio_file_seek scriptNative crtEnv ⟨1⟩ [.string lit_end, .number 0] ⟨[], 0⟩
        ⟨[], 0⟩).outcome = .returned []
    ∧ (nixio_file_tell scriptNative ⟨1⟩ [.string lit_end, .number 0] ⟨[], 0⟩
        ⟨[], 0⟩).outcome = .returned [] :=
  ⟨(failure_returns_no_value scriptNative crtEnv ⟨1⟩ [.string lit_end, .number 0] ⟨[], 0⟩
      ⟨[], 0⟩ (by decide)).2.1 1 0 SEEK_END (-1) (by decide) (by decide),
   (failure_returns_no_value scriptNative crtEnv ⟨1⟩ [.string lit_end, .number 0] ⟨[], 0⟩
      ⟨[], 0⟩ (by decide)).2.2 1 (-1) (by decide) (by decide)⟩

/-- C5 fails as stated: a `read` of 4 bytes at the end of a file, and a `seek`
before the start of it, return no value, where `nixio__perror` would have pushed
three. -/
theorem failed_read_returns_zero_values :
    (nixio_file_read idealNative crtEnv ⟨1⟩ [.number 4] ⟨[], 0⟩ ⟨[], 0, 0⟩ 1).map
        (fun r => (r.outcome, r.calls)) = some (.returned [], [Call.fread 1 0 4 [] 0])
    ∧ (nixio_file_seek idealNative crtEnv ⟨1⟩ [.string lit_set, .number (-1)] ⟨[], 0⟩
        ⟨[], 0, 0⟩).outcome = .returned []
    ∧ (nixio_file_seek idealNative crtEnv ⟨1⟩ [.string lit_set, .number (-1)] ⟨[], 0⟩
        ⟨[], 0, 0⟩).calls = [Call.fseeki64 1 (-1) SEEK_SET (-1)]
    ∧ lua_return (nixio__perror idealNative crtEnv ⟨[], 0, 0⟩ [.number 4]).1
        (nixio__perror idealNative crtEnv ⟨[], 0, 0⟩ [.number 4]).2
        = .returned [.nil, .number 0, .string [63]] := by
  decide

/-- C8, evaluated on the code: a request of 2^31 bytes is doubled to 0 in
`unsigned int`; from capacity 0 the resize step leaves capacity 0, from capacity 8
it shrinks the buffer to 0, and `read` leaves that capacity behind. -/
theorem resize_wraps_at_two_pow_31 :
    toUInt 2147483648 = 2147483648
    ∧ (resize ⟨[], 0⟩ (toUInt 2147483648)).buflen = 0
    ∧ (resize ⟨[0, 0, 0, 0, 0, 0, 0, 0], 8⟩ (toUInt 2147483648)).buflen = 0
    ∧ (nixio_file_read idealNative crtEnv ⟨1⟩ [.number 2147483648] ⟨[0, 0, 0, 0, 0, 0, 0, 0], 8⟩
        ⟨[], 0, 0⟩ 1).map (fun r => (r.outcome, r.scratch)) = some (.returned [], ⟨[], 0⟩) := by
  decide

/-! ## The round trip on the ideal library -/

theorem toUInt_natCast (k : Nat) (hk : k < 2 ^ 32) : toUInt (k : Int) = k := by
  unfold toUInt
  have h : ((k : Int) % 2 ^ 32) = (k : Int) := by
    apply Int.emod_eq_of_lt (Int.natCast_nonneg k)
    exact_mod_cast hk
  rw [h]
  simp

theorem overwrite_start (c d : List Byte) : (overwrite c 0 d).take d.length = d := by
  simp [overwrite]

/-- On the ideal library `write` on an open handle puts the whole sequence at the
position with one `fwrite` and returns its length. -/
theorem ideal_write (E : Env) (h : Handle) (S : List Byte) (rest : List LuaValue)
    (sc : Scratch) (w : IdealFile) (fuel : Nat) (ho : h.fp ≠ 0) :
    nixio_file_write idealNative E h (.string S :: rest) sc w (fuel + 1)
      = some ⟨.returned [.number S.length], h, sc,
          ⟨overwrite w.contents w.pos S, w.pos + S.length, w.errno⟩,
          [Call.fwrite h.fp 0 S.length S.length w.errno]⟩ := by
  have hfp := checkfp_open h 1 ho
  have hret := lua_return_push (LuaValue.string S :: rest) [LuaValue.number (S.length : Int)]
  simp only [List.length_singleton] at hret
  simp only [List.cons_append] at hret
  simp [nixio_file_write, hfp, luaL_checklstring, argAt, writeLoop, idealNative, hret]

/-- On the ideal library a seek to the start succeeds and reports position 0. -/
theorem ideal_seek_start (E : Env) (h : Handle) (sc : Scratch) (w : IdealFile)
    (ho : h.fp ≠ 0) :
    nixio_file_seek idealNative E h [.string lit_set, .number 0] sc w
      = ⟨.returned [.number 0], h, sc, ⟨w.contents, 0, w.errno⟩,
          [Call.fseeki64 h.fp 0 SEEK_SET 0, Call.ftelli64 h.fp 0]⟩ := by
  have hfp := checkfp_open h 1 ho
  have hret := lua_return_push [LuaValue.string lit_set, LuaValue.number 0]
    [LuaValue.number 0]
  simp only [List.length_singleton] at hret
  have hs : streq lit_set lit_set = true := by decide
  have h64 : toInt64 0 = 0 := by decide
  simp [nixio_file_seek, hfp, luaL_optlstring, luaL_checklstring, luaL_checknumber, argAt,
    hs, h64, idealNative, SEEK_SET]
  exact hret

/-- On the ideal library a `read` of `k` bytes, `0 < k < 2^31`, from a position with
at least `k` bytes ahead returns exactly those bytes with one `fread`. -/
theorem ideal_read (E : Env) (h : Handle) (k : Nat) (sc : Scratch) (w : IdealFile)
    (fuel : Nat) (ho : h.fp ≠ 0) (hk0 : 0 < k) (hk : k < 2 ^ 31)
    (hav : w.pos + k ≤ w.contents.length) :
    (nixio_file_read idealNative E h [.number k] sc w (fuel + 1)).map (fun r => r.outcome)
      = some (.returned [.string ((w.contents.drop w.pos).take k)]) := by
  have hfp := checkfp_open h 1 ho
  have hu : toUInt (k : Int) = k := toUInt_natCast k (by omega)
  have hlen : ((w.contents.drop w.pos).take k).length = k := by
    rw [List.length_take, List.length_drop]
    omega
  have hst := store_take (resize sc k).buffer 0 ((w.contents.drop w.pos).take k) (by simp)
  simp only [Nat.zero_add, hlen, List.take_zero, List.nil_append] at hst
  have hret := lua_return_push [LuaValue.number (k : Int)]
    [LuaValue.string ((w.contents.drop w.pos).take k)]
  simp only [List.length_singleton] at hret
  have hloop : readLoop idealNative E h.fp k (fuel + 1) 0
      (resize sc k).buffer w []
      = ⟨.done, k, store (resize sc k).buffer 0 ((w.contents.drop w.pos).take k),
          ⟨w.contents, w.pos + k, w.errno⟩,
          [Call.fread h.fp 0 k ((w.contents.drop w.pos).take k) w.errno]⟩ := by
    unfold readLoop
    simp only [Nat.sub_zero, Nat.zero_add, idealNative, hlen, List.nil_append]
    rw [if_neg (by omega)]
  simp only [nixio_file_read, hfp, luaL_checkinteger, luaL_checknumber, argAt]
  simp only [show ¬ (2 < 2) from by decide, if_false, Nat.sub_self, List.get?_cons_zero, hu,
    hloop, hst, Option.map]
  rw [if_neg (by omega)]
  simp only [hret]

/-- C1, as the code has it: on the ideal library, for an open handle whose file
position is 0 and a byte sequence `S` that is not empty and shorter than 2^31,
whatever its bytes, `write` returns the length of `S`, the seek to the start
returns 0, and the `read` of `S.length` bytes returns exactly `S`. -/
theorem round_trip_returns_written (E : Env) (h : Handle) (S : List Byte) (sc : Scratch)
    (w : IdealFile) (fuel : Nat) (ho : h.fp ≠ 0) (hpos : w.pos = 0) (hne : S ≠ [])
    (hlen : S.length < 2 ^ 31) :
    roundTrip E h S sc w (fuel + 1)
      = some (.returned [.number S.length], .returned [.number 0],
          .returned [.string S]) := by
  have h0 : 0 < S.length := List.length_pos.2 hne
  have hrd := ideal_read E h S.length sc ⟨overwrite w.contents 0 S, 0, w.errno⟩ fuel ho h0 hlen
    (by simp [overwrite])
  simp only [List.drop_zero, overwrite_start] at hrd
  unfold roundTrip
  rw [ideal_write E h S [] sc w fuel ho]
  simp only [ideal_seek_start E h sc _ ho, hpos, Nat.zero_add]
  cases hr : nixio_file_read idealNative E h [LuaValue.number S.length] sc
      ⟨overwrite w.contents 0 S, 0, w.errno⟩ (fuel + 1) with
  | none => simp [hr] at hrd
  | some r3 =>
    simp only [hr, Option.map, Option.some.injEq] at hrd
    simp only [hrd]

/-- Instance of `round_trip_returns_written`: three bytes with a zero byte in the
middle, written over a file that held other bytes. -/
theorem round_trip_returns_written_witness :
    (⟨1⟩ : Handle).fp ≠ 0 ∧ (⟨[9, 9, 9, 9, 9], 0, 0⟩ : IdealFile).pos = 0
    ∧ ([1, 0, 2] : List Byte) ≠ [] ∧ ([1, 0, 2] : List Byte).length < 2 ^ 31
    ∧ roundTrip crtEnv ⟨1⟩ [1, 0, 2] ⟨[], 0⟩ ⟨[9, 9, 9, 9, 9], 0, 0⟩ 1
      = some (.returned [.number 3], .returned [.number 0], .returned [.string [1, 0, 2]]) :=
  ⟨by decide, rfl, by decide, by decide,
   round_trip_returns_written crtEnv ⟨1⟩ [1, 0, 2] ⟨[], 0⟩ ⟨[9, 9, 9, 9, 9], 0, 0⟩ 0
     (by decide) rfl (by decide) (by decide)⟩

/-- C1 fails as stated: for the empty sequence the `read` of 0 bytes returns no
value instead of the empty sequence; and on a handle whose position is 1 the
sequence is written behind the first byte of the file, so the `read` from the
start returns that first byte instead. -/
theorem round_trip_fails_on_empty_and_on_offset :
    roundTrip crtEnv ⟨1⟩ [] ⟨[], 0⟩ ⟨[], 0, 0⟩ 1
      = some (.returned [.number 0], .returned [.number 0], .returned [])
    ∧ roundTrip crtEnv ⟨1⟩ [7] ⟨[], 0⟩ ⟨[1, 2], 1, 0⟩ 1
      = some (.returned [.number 1], .returned [.number 0], .returned [.string [1]]) := by
  decide

end Nixio
